import Mathlib

/-!
Verification of the `xata_loaddata.py` bulk loader.

The script is a single linear pipeline: read a CSV into a dataframe,
validate and select the required columns, clean each field (strip commas
and double quotes, truncate to the column width), drop NA rows, drop
duplicate `uni_roll` rows keeping the first occurrence, then connect to
the database, create the permanent `students` table, create a staging
table `temp_students`, serialize the cleaned frame to an in-memory CSV
buffer, bulk-load it with `copy_from` (PostgreSQL COPY, text format,
delimiter `,`), and finally merge staging into `students` with
`INSERT ... ON CONFLICT (uni_roll) DO UPDATE`.

The embedding below models the dataframe stages, the CSV serialization
(pandas `to_csv` with minimal quoting), the COPY text-format parse
performed by the server, the upsert merge, and the control flow of the
script (an `Oracle` supplies the success/failure outcome of each
external call, and `run` mirrors the script's try/except structure).
-/

namespace XataLoad

/-- Remove every occurrence of one character from a string, as pandas
`Series.str.replace(c, '')` does for a single-character pattern. -/
def removeChar (c : Char) (s : String) : String :=
  ⟨s.data.filter (fun x => x != c)⟩

/-- The cleaning performed on every field: `.str.replace(',', '').str.replace('"', '')`. -/
def stripCQ (s : String) : String := removeChar '"' (removeChar ',' s)

/-- Pandas `astype(str)`: a missing value (NaN) becomes the literal string `"nan"`. -/
def astypeStr : Option String → String
  | none => "nan"
  | some s => s

/-- Pandas `.str[:n]`: keep the first `n` characters. -/
def truncStr (n : Nat) (s : String) : String := ⟨s.data.take n⟩

/-- The full per-field cleaning of lines 37-39 of the script:
`astype(str)`, strip commas and quotes, truncate to the column width. -/
def cleanField (maxLen : Nat) (cell : Option String) : String :=
  truncStr maxLen (stripCQ (astypeStr cell))

/-- An in-memory dataframe: named columns and rows of cells, where a
`none` cell is a pandas NaN (e.g. an empty CSV field). -/
structure DataFrame where
  cols : List String
  rows : List (List (Option String))
deriving Repr, DecidableEq

/-- `expected_columns = ['name', 'uni_roll', 'branch']`. -/
def expectedColumns : List String := ["name", "uni_roll", "branch"]

/-- Index of a column name in the column list (first match). -/
def colIdx (cols : List String) (c : String) : Option Nat :=
  match cols with
  | [] => none
  | x :: xs => if x = c then some 0 else (colIdx xs c).map (· + 1)

/-- Look a cell up by column name. -/
def getCell (cols : List String) (row : List (Option String)) (c : String) : Option String :=
  match colIdx cols c with
  | some i => (row.get? i).bind id
  | none => none

/-- `all(col in df.columns for col in expected_columns)`. -/
def hasRequiredColumns (df : DataFrame) : Bool :=
  expectedColumns.all (fun c => df.cols.contains c)

/-- `if len(df.columns) > len(expected_columns): df = df[expected_columns]`:
reindex by name onto the required columns only when extra columns exist. -/
def selectExpected (df : DataFrame) : DataFrame :=
  if df.cols.length > expectedColumns.length then
    ⟨expectedColumns, df.rows.map (fun r => expectedColumns.map (fun c => getCell df.cols r c))⟩
  else df

/-- Clean one cell according to which column it belongs to (lines 37-39):
`name` is truncated to 255, `uni_roll` to 100, `branch` to 50 characters;
other columns are untouched. The result of a cleaned column is always a
present (non-NaN) string, because `astype(str)` maps NaN to `"nan"`. -/
def cleanCell (c : String) (cell : Option String) : Option String :=
  if c = "name" then some (cleanField 255 cell)
  else if c = "uni_roll" then some (cleanField 100 cell)
  else if c = "branch" then some (cleanField 50 cell)
  else cell

/-- Apply the three cleaning assignments to a whole frame. -/
def cleanDF (df : DataFrame) : DataFrame :=
  ⟨df.cols, df.rows.map (fun r => List.zipWith cleanCell df.cols r)⟩

/-- `df.dropna(subset=expected_columns)`: keep the rows whose required
cells are all present. -/
def dropnaRequired (df : DataFrame) : DataFrame :=
  ⟨df.cols, df.rows.filter (fun r => expectedColumns.all (fun c => (getCell df.cols r c).isSome))⟩

/-- The deduplication key of a row: its `uni_roll` cell. -/
def rowKey (cols : List String) (row : List (Option String)) : Option String :=
  getCell cols row "uni_roll"

/-- `df.drop_duplicates(subset=['uni_roll'], keep='first')`, with the set
of keys already seen threaded through. -/
def dedupFirstAux (cols : List String) :
    List (Option String) → List (List (Option String)) → List (List (Option String))
  | _, [] => []
  | seen, r :: rs =>
    if seen.contains (rowKey cols r) then dedupFirstAux cols seen rs
    else r :: dedupFirstAux cols (rowKey cols r :: seen) rs

/-- `df[df['uni_roll'].duplicated()]`: the rows whose key already occurred
earlier in the frame (the rows that deduplication discards). -/
def duplicatedRowsAux (cols : List String) :
    List (Option String) → List (List (Option String)) → List (List (Option String))
  | _, [] => []
  | seen, r :: rs =>
    if seen.contains (rowKey cols r) then r :: duplicatedRowsAux cols seen rs
    else duplicatedRowsAux cols (rowKey cols r :: seen) rs

/-- Drop duplicate `uni_roll` rows, keeping the first occurrence. -/
def dropDuplicatesFirst (df : DataFrame) : DataFrame :=
  ⟨df.cols, dedupFirstAux df.cols [] df.rows⟩

/-- The rows reported (and then discarded) as duplicates. -/
def duplicatedRows (df : DataFrame) : List (List (Option String)) :=
  duplicatedRowsAux df.cols [] df.rows

/-- The frame after selection, cleaning, and `dropna`, just before
deduplication. -/
def preDedup (df : DataFrame) : DataFrame :=
  dropnaRequired (cleanDF (selectExpected df))

/-- The fully cleaned frame of Step 1 of the script. -/
def cleanedOf (df : DataFrame) : DataFrame :=
  dropDuplicatesFirst (preDedup df)

/-- A row of the `students` (or staging) table. -/
structure Student where
  name : String
  uni_roll : String
  branch : String
deriving Repr, DecidableEq

/-- Read the cleaned frame as student records, by column name. -/
def toStudents (df : DataFrame) : List Student :=
  df.rows.map (fun r =>
    ⟨(getCell df.cols r "name").getD "", (getCell df.cols r "uni_roll").getD "",
      (getCell df.cols r "branch").getD ""⟩)

/-- Python `csv` minimal quoting: a field is quoted iff it contains the
delimiter, the quote character, or a line break. -/
def needsQuoting (s : String) : Bool :=
  s.data.any (fun c => c == ',' || c == '"' || c == '\n' || c == '\r')

/-- Double every quote character inside a quoted field. -/
def quoteChars (cs : List Char) : List Char :=
  match cs with
  | [] => []
  | c :: rest => if c == '"' then '"' :: '"' :: quoteChars rest else c :: quoteChars rest

/-- Serialize one field under `csv.QUOTE_MINIMAL`. -/
def csvFieldChars (s : String) : List Char :=
  if needsQuoting s then '"' :: (quoteChars s.data ++ ['"']) else s.data

/-- Join character lists with a separator character. -/
def joinSep (sep : Char) : List (List Char) → List Char
  | [] => []
  | [x] => x
  | x :: xs => x ++ sep :: joinSep sep xs

/-- The cells of a row as written by `to_csv` (NaN becomes the empty field). -/
def rowCells (row : List (Option String)) : List String :=
  row.map (fun c => c.getD "")

/-- One CSV line (without the terminating newline). -/
def csvLineChars (cells : List String) : List Char :=
  joinSep ',' (cells.map csvFieldChars)

/-- `df.to_csv(buffer, index=False, header=False, sep=',', quoting=csv.QUOTE_MINIMAL)`:
every row becomes one newline-terminated line, cells in column order. -/
def toCsvBufferChars (df : DataFrame) : List Char :=
  (df.rows.map (fun r => csvLineChars (rowCells r) ++ ['\n'])).flatten

/-- The in-memory `StringIO` buffer handed to `copy_from`. -/
def toCsvBuffer (df : DataFrame) : String := ⟨toCsvBufferChars df⟩

/-- `df.to_csv('failed_rows.csv', index=False)`: same serialization, with
the header line included (pandas default `header=True`). -/
def toCsvWithHeader (df : DataFrame) : String :=
  ⟨csvLineChars df.cols ++ '\n' :: toCsvBufferChars df⟩

/-- The backslash escapes of the PostgreSQL COPY text format
(octal and hex digit escapes are omitted; they are not exercised here).
An unrecognized escaped character stands for itself. -/
def copyEscapeChar (e : Char) : Char :=
  if e == 'b' then Char.ofNat 8
  else if e == 'f' then Char.ofNat 12
  else if e == 'n' then '\n'
  else if e == 'r' then '\r'
  else if e == 't' then '\t'
  else if e == 'v' then Char.ofNat 11
  else e

/-- Scan of the COPY text format: a backslash escapes the next character
(so an escaped delimiter or newline is data), an unescaped delimiter ends
the field, an unescaped newline ends the row. A final line without a
trailing newline still yields a row. -/
def copyRowsAux (del : Char) : List Char → List Char → List (List Char) → List (List (List Char))
  | [], field, row => if field.isEmpty && row.isEmpty then [] else [row ++ [field]]
  | c :: rest, field, row =>
    if c == '\\' then
      match rest with
      | [] => [row ++ [field ++ ['\\']]]
      | e :: rest2 => copyRowsAux del rest2 (field ++ [copyEscapeChar e]) row
    else if c == del then copyRowsAux del rest [] (row ++ [field])
    else if c == '\n' then (row ++ [field]) :: copyRowsAux del rest [] []
    else copyRowsAux del rest (field ++ [c]) row

/-- `cur.copy_from(buffer, 'temp_students', sep=',', columns=('name','uni_roll','branch'))`:
the server parses the buffer in COPY text format; a row whose field count
differs from the three target columns is an error (`none`); otherwise the
fields fill `name`, `uni_roll`, `branch` positionally. -/
def copyFromParse (buffer : String) : Option (List Student) :=
  let rows := copyRowsAux ',' buffer.data [] []
  if rows.all (fun r => r.length == 3) then
    some (rows.map (fun r => ⟨⟨r.getD 0 []⟩, ⟨r.getD 1 []⟩, ⟨r.getD 2 []⟩⟩))
  else none

/-- One row of `INSERT ... ON CONFLICT (uni_roll) DO UPDATE SET name = EXCLUDED.name,
branch = EXCLUDED.branch`: overwrite the non-key columns of an existing row
with the same `uni_roll`, or append a new row. -/
def upsertStudent (t : List Student) (s : Student) : List Student :=
  if t.any (fun x => x.uni_roll == s.uni_roll) then
    t.map (fun x => if x.uni_roll == s.uni_roll then ⟨s.name, x.uni_roll, s.branch⟩ else x)
  else t ++ [s]

/-- The merge of all staging rows into the permanent table. -/
def mergeStudents (t : List Student) (rs : List Student) : List Student :=
  rs.foldl upsertStudent t

/-- The `uni_roll` column of a table. -/
def keysOf (t : List Student) : List String := t.map Student.uni_roll

/-- The primary-key invariant of `students`. -/
def keysNodup (t : List Student) : Prop := (keysOf t).Nodup

/-- The row with a given `uni_roll`, if any (first match). -/
def findByRoll (k : String) (t : List Student) : Option Student :=
  t.find? (fun x => x.uni_roll == k)

/-- The last-loaded row with a given `uni_roll` among the staged rows. -/
def findLastByRoll (k : String) (rs : List Student) : Option Student :=
  findByRoll k rs.reverse

/-- The warnings the script prints without aborting. -/
inductive Warning where
  | extraColumns : Warning
  | duplicateRolls : Nat → Warning
  | dropTempFailed : Warning
  | verifyMismatch : Nat → Nat → Warning
  | verifyFailed : Warning
deriving Repr, DecidableEq

/-- The outcome of each external call the script attempts, abstracting the
driver: `true` means the call does not raise. -/
structure Oracle where
  connectOk : Bool
  createTableOk : Bool
  createTempOk : Bool
  copyOk : Bool
  mergeOk : Bool
  dropTempOk : Bool
  verifyOk : Bool
deriving Repr, DecidableEq

/-- Observable outcome of one invocation of the script: exit status, which
database calls were attempted, whether the connection was closed, the file
written on COPY failure, the resulting `students` table, and the warnings. -/
structure RunResult where
  exitCode : Nat
  createTableAttempted : Bool
  stagingAttempted : Bool
  copyAttempted : Bool
  mergeAttempted : Bool
  connClosed : Bool
  failedFile : Option String
  students : List Student
  warnings : List Warning
deriving Repr, DecidableEq

/-- An exit taken before any database call was attempted. -/
def abortResult (code : Nat) (s0 : List Student) (w : List Warning) : RunResult :=
  ⟨code, false, false, false, false, false, none, s0, w⟩

/-- The whole script, `input = none` standing for a CSV read error and
`students0` for the prior contents of the permanent table. The branch
structure mirrors the try/except blocks of the source: validation and
cleaning first, then connect, create `students`, create `temp_students`,
COPY (writing `failed_rows.csv` on failure), merge, and the two
warning-only steps (drop of the staging table, row-count verification). -/
def run (input : Option DataFrame) (o : Oracle) (students0 : List Student) : RunResult :=
  match input with
  | none => abortResult 1 students0 []
  | some df0 =>
    if hasRequiredColumns df0 then
      let w1 : List Warning :=
        if df0.cols.length > expectedColumns.length then [Warning.extraColumns] else []
      let dupCount := (duplicatedRows (preDedup df0)).length
      let w2 := if dupCount == 0 then w1 else w1 ++ [Warning.duplicateRolls dupCount]
      let df := cleanedOf df0
      if o.connectOk then
        if o.createTableOk then
          if o.createTempOk then
            match (if o.copyOk then copyFromParse (toCsvBuffer df) else none) with
            | some staged =>
              if o.mergeOk then
                let merged := mergeStudents students0 staged
                let w3 := if o.dropTempOk then w2 else w2 ++ [Warning.dropTempFailed]
                let w4 :=
                  if o.verifyOk then
                    if merged.length == df.rows.length then w3
                    else w3 ++ [Warning.verifyMismatch df.rows.length merged.length]
                  else w3 ++ [Warning.verifyFailed]
                ⟨0, true, true, true, true, true, none, merged, w4⟩
              else
                { abortResult 1 students0 w2 with
                    createTableAttempted := true,
                    stagingAttempted := true,
                    copyAttempted := true,
                    mergeAttempted := true,
                    connClosed := true }
            | none =>
              { abortResult 1 students0 w2 with
                  createTableAttempted := true,
                  stagingAttempted := true,
                  copyAttempted := true,
                  connClosed := true,
                  failedFile := some (toCsvWithHeader df) }
          else
            { abortResult 1 students0 w2 with
                createTableAttempted := true,
                stagingAttempted := true,
                connClosed := true }
        else
          { abortResult 1 students0 w2 with
              createTableAttempted := true,
              connClosed := true }
      else abortResult 1 students0 w2
    else abortResult 1 students0 []

/-- All external calls succeed. -/
def oAll : Oracle := ⟨true, true, true, true, true, true, true⟩

/-- The connection attempt raises. -/
def oNoConn : Oracle := ⟨false, true, true, true, true, true, true⟩

/-- The bulk COPY raises. -/
def oNoCopy : Oracle := ⟨true, true, true, false, true, true, true⟩

/-- Everything fatal succeeds but dropping the staging table fails. -/
def oNoDrop : Oracle := ⟨true, true, true, true, true, false, true⟩

/-- A parsed CSV whose single row is missing its required `name` field. -/
def dfC1 : DataFrame := ⟨["name", "uni_roll", "branch"], [[none, some "R1", some "CS"]]⟩

/-- The concrete input of the spec's worked example: an extra column and a
quoted name field containing a comma. -/
def dfC8 : DataFrame :=
  ⟨["name", "uni_roll", "branch", "extra_col"],
   [[some "A,B", some "R1", some "X", some "ignored"]]⟩

/-- A parsed CSV whose name field contains a backslash (the CSV reader is
configured with `escapechar='\\'`, so a doubled backslash in the file
yields one literal backslash in the frame). -/
def dfC10 : DataFrame := ⟨["name", "uni_roll", "branch"], [[some "a\\b", some "r1", some "x"]]⟩

/-- A parsed CSV with a duplicated `uni_roll`. -/
def dfDup : DataFrame :=
  ⟨["name", "uni_roll", "branch"],
   [[some "Ann", some "R1", some "CS"], [some "Bob", some "R1", some "EE"],
    [some "Cid", some "R2", some "ME"]]⟩

/-- A 300-character name, exceeding the 255-character column width. -/
def longName : String := ⟨List.replicate 300 'a'⟩

/-- A parsed CSV with an over-long name field. -/
def dfLong : DataFrame := ⟨["name", "uni_roll", "branch"], [[some longName, some "R9", some "CE"]]⟩

/-- The 300-character name truncated to the 255-character column width. -/
def longName255 : String := ⟨List.replicate 255 'a'⟩

/-- A character that survives the serialize-then-COPY round trip
verbatim: not the delimiter, not the quote character, not a line break,
and not the COPY escape character. -/
def copySafeChar (ch : Char) : Prop :=
  ch ≠ ',' ∧ ch ≠ '"' ∧ ch ≠ '\n' ∧ ch ≠ '\r' ∧ ch ≠ '\\'

/-- A field whose characters are all round-trip safe. -/
def copySafeStr (s : String) : Prop := ∀ ch ∈ s.data, copySafeChar ch


/-- C1: the code keeps a row whose required `name` field is missing.
`astype(str)` turns the missing value into the literal string "nan" before
`dropna` runs, so `dropna(subset=expected_columns)` removes nothing and the
row is loaded and persisted with name "nan" instead of being excluded. -/
theorem C1_missing_field_row_is_persisted :
    toStudents (cleanedOf dfC1) = [⟨"nan", "R1", "CS"⟩] ∧
    (run (some dfC1) oAll []).students = [⟨"nan", "R1", "CS"⟩] ∧
    (run (some dfC1) oAll []).exitCode = 0 := by decide

/-- C8: on the worked example (extra column `extra_col`, name field "A,B"),
the loader drops the extra column, strips the comma producing "AB", the
cleaned frame is the single row (name "AB", uni_roll "R1", branch "X"),
and a full successful run persists exactly that row. -/
theorem C8_concrete_example_cleaned_and_persisted :
    cleanedOf dfC8 = ⟨expectedColumns, [[some "AB", some "R1", some "X"]]⟩ ∧
    toStudents (cleanedOf dfC8) = [⟨"AB", "R1", "X"⟩] ∧
    (run (some dfC8) oAll []).students = [⟨"AB", "R1", "X"⟩] ∧
    (run (some dfC8) oAll []).exitCode = 0 := by decide

/-- C10 counterexample: a cleaned row whose name field contains a backslash
(cleaning removes only commas and quotes) is serialized unquoted, and the
COPY text-format parse interprets the backslash as an escape: the staged
row differs from the cleaned row, so the serialize-then-copy round trip is
not the identity on cleaned rows. -/
theorem C10_counterexample_backslash_field :
    toStudents (cleanedOf dfC10) = [⟨"a\\b", "r1", "x"⟩] ∧
    copyFromParse (toCsvBuffer (cleanedOf dfC10)) = some [⟨"a\x08", "r1", "x"⟩] ∧
    copyFromParse (toCsvBuffer (cleanedOf dfC10)) ≠ some (toStudents (cleanedOf dfC10)) := by
  decide

/-- C6: when the connection attempt fails, the run exits with status 1 and
no table-creation, staging, bulk-copy, or merge call is ever attempted
(this also covers runs that abort even earlier, before connecting). -/
theorem C6_connect_failure_exits_1_no_db_calls
    (input : Option DataFrame) (o : Oracle) (s0 : List Student)
    (h : o.connectOk = false) :
    (run input o s0).exitCode = 1 ∧
    (run input o s0).createTableAttempted = false ∧
    (run input o s0).stagingAttempted = false ∧
    (run input o s0).copyAttempted = false ∧
    (run input o s0).mergeAttempted = false := by
  cases input with
  | none => simp [run, abortResult]
  | some df0 =>
    by_cases hv : hasRequiredColumns df0
    · simp [run, hv, h, abortResult]
    · simp [run, hv, abortResult]

/-- C6 witness at a concrete input and oracle. -/
theorem C6_connect_failure_exits_1_no_db_calls_witness :
    (run (some dfC8) oNoConn []).exitCode = 1 ∧
    (run (some dfC8) oNoConn []).createTableAttempted = false ∧
    (run (some dfC8) oNoConn []).stagingAttempted = false ∧
    (run (some dfC8) oNoConn []).copyAttempted = false ∧
    (run (some dfC8) oNoConn []).mergeAttempted = false :=
  C6_connect_failure_exits_1_no_db_calls (some dfC8) oNoConn [] rfl

/-- C5: when the bulk COPY into the staging table fails after validation
succeeded (either the call raises, or the server rejects the data), the
run writes `failed_rows.csv` containing the whole cleaned frame in the
input's tabular format (CSV with a header line), closes the connection,
exits with status 1, leaves the permanent table unchanged, and never
attempts the merge. -/
theorem C5_copy_failure_writes_recovery_file
    (df0 : DataFrame) (o : Oracle) (s0 : List Student)
    (hv : hasRequiredColumns df0 = true)
    (hc : o.connectOk = true) (hct : o.createTableOk = true) (htmp : o.createTempOk = true)
    (hfail : (if o.copyOk then copyFromParse (toCsvBuffer (cleanedOf df0)) else none) = none) :
    (run (some df0) o s0).exitCode = 1 ∧
    (run (some df0) o s0).failedFile = some (toCsvWithHeader (cleanedOf df0)) ∧
    (run (some df0) o s0).connClosed = true ∧
    (run (some df0) o s0).students = s0 ∧
    (run (some df0) o s0).mergeAttempted = false := by
  simp only [run, hv, hc, hct, htmp, if_true, hfail]
  simp [abortResult]

/-- C5 witness: the COPY call raises on the worked example. -/
theorem C5_copy_failure_writes_recovery_file_witness :
    (run (some dfC8) oNoCopy []).exitCode = 1 ∧
    (run (some dfC8) oNoCopy []).failedFile = some (toCsvWithHeader (cleanedOf dfC8)) ∧
    (run (some dfC8) oNoCopy []).connClosed = true ∧
    (run (some dfC8) oNoCopy []).students = [] ∧
    (run (some dfC8) oNoCopy []).mergeAttempted = false :=
  C5_copy_failure_writes_recovery_file dfC8 oNoCopy [] rfl rfl rfl rfl rfl

/-- C9: a failure to drop the staging table and a row-count verification
mismatch (or verification failure) are warning-only: whenever every fatal
step succeeds, the run exits with status 0 and closes the connection, for
every value of the cleanup and verification outcomes; a failed staging
drop merely adds a warning. -/
theorem C9_cleanup_and_verify_are_warning_only
    (df0 : DataFrame) (o : Oracle) (s0 : List Student) (staged : List Student)
    (hv : hasRequiredColumns df0 = true)
    (hc : o.connectOk = true) (hct : o.createTableOk = true) (htmp : o.createTempOk = true)
    (hcopy : o.copyOk = true)
    (hparse : copyFromParse (toCsvBuffer (cleanedOf df0)) = some staged)
    (hm : o.mergeOk = true) :
    (run (some df0) o s0).exitCode = 0 ∧
    (run (some df0) o s0).connClosed = true ∧
    (run (some df0) o s0).failedFile = none ∧
    (o.dropTempOk = false → Warning.dropTempFailed ∈ (run (some df0) o s0).warnings) := by
  simp only [run, hv, hc, hct, htmp, hcopy, hm, if_true, hparse]
  refine ⟨by simp, by simp, by simp, ?_⟩
  intro hd
  simp only [hd]
  by_cases hver : o.verifyOk <;>
    by_cases hlen : (mergeStudents s0 staged).length == (cleanedOf df0).rows.length <;>
    simp [hver, hlen]

/-- C9 witness: staging-table drop fails and the verification count
mismatches (prior table row makes the count 2 against 1 cleaned row), yet
the run exits 0 with the drop-failure warning recorded. -/
theorem C9_cleanup_and_verify_are_warning_only_witness :
    (run (some dfC8) oNoDrop [⟨"z", "Z", "z"⟩]).exitCode = 0 ∧
    (run (some dfC8) oNoDrop [⟨"z", "Z", "z"⟩]).connClosed = true ∧
    (run (some dfC8) oNoDrop [⟨"z", "Z", "z"⟩]).failedFile = none ∧
    Warning.dropTempFailed ∈ (run (some dfC8) oNoDrop [⟨"z", "Z", "z"⟩]).warnings ∧
    Warning.verifyMismatch 1 2 ∈ (run (some dfC8) oNoDrop [⟨"z", "Z", "z"⟩]).warnings := by
  have h := C9_cleanup_and_verify_are_warning_only dfC8 oNoDrop [⟨"z", "Z", "z"⟩]
    [⟨"AB", "R1", "X"⟩] rfl rfl rfl rfl rfl (by decide) rfl
  exact ⟨h.1, h.2.1, h.2.2.1, h.2.2.2 rfl, by decide⟩

/-- The upsert's conflict test matches exactly membership of the new key
in the key column. -/
theorem any_roll_iff (t : List Student) (s : Student) :
    (t.any (fun x => x.uni_roll == s.uni_roll) = true) ↔ s.uni_roll ∈ keysOf t := by
  rw [List.any_eq_true, keysOf]
  constructor
  · rintro ⟨x, hx, hpx⟩
    exact List.mem_map.2 ⟨x, hx, beq_iff_eq.1 hpx⟩
  · intro hm
    obtain ⟨x, hx, hxeq⟩ := List.mem_map.1 hm
    exact ⟨x, hx, beq_iff_eq.2 hxeq⟩

/-- An upsert leaves the key column unchanged on conflict, and appends the
new key otherwise. -/
theorem keysOf_upsert (t : List Student) (s : Student) :
    keysOf (upsertStudent t s) =
      if s.uni_roll ∈ keysOf t then keysOf t else keysOf t ++ [s.uni_roll] := by
  by_cases h : s.uni_roll ∈ keysOf t
  · rw [if_pos h, upsertStudent, if_pos ((any_roll_iff t s).2 h), keysOf, List.map_map]
    refine List.map_congr_left (fun x _ => ?_)
    simp only [Function.comp_apply]
    split <;> rfl
  · rw [if_neg h, upsertStudent, if_neg, keysOf, List.map_append]
    · rfl
    · rw [any_roll_iff]; exact h

theorem mem_keysOf_upsert (t : List Student) (s : Student) (k : String) :
    k ∈ keysOf (upsertStudent t s) ↔ k ∈ keysOf t ∨ k = s.uni_roll := by
  rw [keysOf_upsert]
  by_cases h : s.uni_roll ∈ keysOf t
  · rw [if_pos h]
    constructor
    · exact Or.inl
    · rintro (hk | rfl)
      · exact hk
      · exact h
  · rw [if_neg h, List.mem_append, List.mem_singleton]

theorem keysNodup_upsert (t : List Student) (s : Student) (h : keysNodup t) :
    keysNodup (upsertStudent t s) := by
  rw [keysNodup, keysOf_upsert]
  by_cases hm : s.uni_roll ∈ keysOf t
  · rwa [if_pos hm]
  · rw [if_neg hm, List.nodup_append]
    refine ⟨h, List.nodup_singleton _, fun a ha hb => ?_⟩
    rw [List.mem_singleton] at hb
    exact hm (hb ▸ ha)

theorem mem_keysOf_merge (rs : List Student) :
    ∀ (t : List Student) (k : String),
      k ∈ keysOf (mergeStudents t rs) ↔ k ∈ keysOf t ∨ k ∈ keysOf rs := by
  induction rs with
  | nil =>
    intro t k
    rw [mergeStudents]
    simp [keysOf]
  | cons s rest ih =>
    intro t k
    rw [show mergeStudents t (s :: rest) = mergeStudents (upsertStudent t s) rest from rfl, ih,
      mem_keysOf_upsert]
    simp only [keysOf, List.map_cons, List.mem_cons]
    rw [show (k ∈ List.map Student.uni_roll rest) = (k ∈ keysOf rest) from rfl]
    tauto

theorem keysNodup_merge (rs : List Student) :
    ∀ (t : List Student), keysNodup t → keysNodup (mergeStudents t rs) := by
  induction rs with
  | nil => intro t h; exact h
  | cons s rest ih => intro t h; exact ih _ (keysNodup_upsert t s h)

/-- Upserting a row makes it the row found for its key. -/
theorem findByRoll_upsert_self (t : List Student) (s : Student) :
    findByRoll s.uni_roll (upsertStudent t s) = some s := by
  rw [upsertStudent]
  by_cases h : (t.any (fun x => x.uni_roll == s.uni_roll)) = true
  · rw [if_pos h, findByRoll, List.find?_map]
    obtain ⟨x, hx, hpx⟩ := List.any_eq_true.1 h
    have hcomp : ((fun x : Student => x.uni_roll == s.uni_roll) ∘
          (fun x : Student => if x.uni_roll == s.uni_roll then ⟨s.name, x.uni_roll, s.branch⟩ else x))
        = (fun x : Student => x.uni_roll == s.uni_roll) := by
      funext x
      simp only [Function.comp_apply]
      split <;> rfl
    rw [hcomp]
    have hfind : ∃ y, t.find? (fun x => x.uni_roll == s.uni_roll) = some y := by
      cases hf : t.find? (fun x => x.uni_roll == s.uni_roll) with
      | none => exact absurd hpx (by simpa using List.find?_eq_none.1 hf x hx)
      | some y => exact ⟨y, rfl⟩
    obtain ⟨y, hy⟩ := hfind
    have hycond := List.find?_some hy
    rw [hy, Option.map_some', if_pos hycond]
    have hyk : y.uni_roll = s.uni_roll := by simpa using hycond
    rw [hyk]
  · rw [if_neg h, findByRoll, List.find?_append]
    have hnone : t.find? (fun x => x.uni_roll == s.uni_roll) = none := by
      rw [List.find?_eq_none]
      intro x hx hpx
      exact h (List.any_eq_true.2 ⟨x, hx, hpx⟩)
    rw [hnone, List.find?_cons_of_pos _ (by simp), Option.none_or]

/-- An upsert does not change the row found for any other key. -/
theorem findByRoll_upsert_other (t : List Student) (s : Student) (k : String)
    (hk : k ≠ s.uni_roll) :
    findByRoll k (upsertStudent t s) = findByRoll k t := by
  rw [upsertStudent]
  by_cases h : (t.any (fun x => x.uni_roll == s.uni_roll)) = true
  · rw [if_pos h, findByRoll, List.find?_map]
    have hcomp : ((fun x : Student => x.uni_roll == k) ∘
          (fun x : Student => if x.uni_roll == s.uni_roll then ⟨s.name, x.uni_roll, s.branch⟩ else x))
        = (fun x : Student => x.uni_roll == k) := by
      funext x
      simp only [Function.comp_apply]
      split <;> rfl
    rw [hcomp, findByRoll]
    cases hf : t.find? (fun x => x.uni_roll == k) with
    | none => rfl
    | some y =>
      have hyk : y.uni_roll = k := by simpa using List.find?_some hf
      have hcond : (y.uni_roll == s.uni_roll) = false := by
        rw [hyk]
        exact beq_eq_false_iff_ne.2 hk
      rw [Option.map_some', hcond]
      simp
  · rw [if_neg h, findByRoll, List.find?_append]
    have hf : (s.uni_roll == k) = false := beq_eq_false_iff_ne.2 (fun hc => hk hc.symm)
    have hsn : List.find? (fun x : Student => x.uni_roll == k) [s] = none := by
      simp [List.find?, hf]
    rw [hsn, Option.or_none, findByRoll]

/-- After a merge, looking a key up yields the last staged row with that
key when one exists, and the prior table row otherwise. -/
theorem findByRoll_merge (rs : List Student) :
    ∀ (t : List Student) (k : String),
      findByRoll k (mergeStudents t rs) = (findLastByRoll k rs).or (findByRoll k t) := by
  induction rs with
  | nil =>
    intro t k
    simp only [mergeStudents, List.foldl_nil, findLastByRoll, findByRoll, List.reverse_nil,
      List.find?_nil, Option.none_or]
  | cons s rest ih =>
    intro t k
    have hrev : findLastByRoll k (s :: rest)
        = (findLastByRoll k rest).or ([s].find? (fun x => x.uni_roll == k)) := by
      simp only [findLastByRoll, findByRoll, List.reverse_cons, List.find?_append]
    rw [show mergeStudents t (s :: rest) = mergeStudents (upsertStudent t s) rest from rfl, ih,
      hrev]
    by_cases hk : k = s.uni_roll
    · subst hk
      rw [findByRoll_upsert_self, List.find?_cons_of_pos _ (by simp), Option.or_assoc,
        Option.or_some]
    · rw [findByRoll_upsert_other t s k hk]
      have hf : (s.uni_roll == k) = false := beq_eq_false_iff_ne.2 (fun hc => hk hc.symm)
      have hsn : List.find? (fun x : Student => x.uni_roll == k) [s] = none := by
        simp [List.find?, hf]
      rw [hsn, Option.or_none]

/-- Loading any row list into an empty table yields one table row per
distinct key. -/
theorem merge_empty_length (rs : List Student) :
    (mergeStudents [] rs).length = (keysOf rs).toFinset.card := by
  have hnd : keysNodup (mergeStudents [] rs) :=
    keysNodup_merge rs [] (by simp [keysNodup, keysOf])
  have hset : (keysOf (mergeStudents [] rs)).toFinset = (keysOf rs).toFinset := by
    ext k
    simp only [List.mem_toFinset]
    rw [mem_keysOf_merge rs [] k]
    simp [keysOf]
  calc (mergeStudents [] rs).length
      = (keysOf (mergeStudents [] rs)).length := (List.length_map _ _).symm
    _ = (keysOf (mergeStudents [] rs)).toFinset.card := (List.toFinset_card_of_nodup hnd).symm
    _ = (keysOf rs).toFinset.card := by rw [hset]

/-- Loading the same row list a second time does not change the row count:
it is still the number of distinct keys. -/
theorem merge_twice_length (rs : List Student) :
    (mergeStudents (mergeStudents [] rs) rs).length = (keysOf rs).toFinset.card := by
  have h0 : keysNodup (mergeStudents [] rs) :=
    keysNodup_merge rs [] (by simp [keysNodup, keysOf])
  have hnd : keysNodup (mergeStudents (mergeStudents [] rs) rs) := keysNodup_merge rs _ h0
  have hset : (keysOf (mergeStudents (mergeStudents [] rs) rs)).toFinset
      = (keysOf rs).toFinset := by
    ext k
    simp only [List.mem_toFinset]
    rw [mem_keysOf_merge rs _ k, mem_keysOf_merge rs [] k]
    simp [keysOf]
  calc (mergeStudents (mergeStudents [] rs) rs).length
      = (keysOf (mergeStudents (mergeStudents [] rs) rs)).length := (List.length_map _ _).symm
    _ = (keysOf (mergeStudents (mergeStudents [] rs) rs)).toFinset.card :=
        (List.toFinset_card_of_nodup hnd).symm
    _ = (keysOf rs).toFinset.card := by rw [hset]

/-- C3: loading the cleaned dataset of any input into an empty permanent
table, once or twice, leaves the table with exactly as many rows as there
are distinct `uni_roll` values in the cleaned dataset: the second merge
only overwrites, it does not duplicate. -/
theorem C3_double_load_row_count_is_distinct_rolls (df0 : DataFrame) :
    (mergeStudents [] (toStudents (cleanedOf df0))).length
        = ((toStudents (cleanedOf df0)).map Student.uni_roll).toFinset.card ∧
    (mergeStudents (mergeStudents [] (toStudents (cleanedOf df0)))
        (toStudents (cleanedOf df0))).length
        = ((toStudents (cleanedOf df0)).map Student.uni_roll).toFinset.card :=
  ⟨merge_empty_length _, merge_twice_length _⟩

/-- C4: merging staged rows into a table whose `uni_roll` column is unique
keeps it unique, and any key that is staged ends up holding the name and
branch of the most recently loaded (last) staged row for that key. -/
theorem C4_merge_unique_keys_and_last_wins
    (t rs : List Student) (ht : keysNodup t) :
    keysNodup (mergeStudents t rs) ∧
    ∀ k s, findLastByRoll k rs = some s → findByRoll k (mergeStudents t rs) = some s := by
  refine ⟨keysNodup_merge rs t ht, fun k s hs => ?_⟩
  rw [findByRoll_merge rs t k, hs, Option.or_some]

/-- C4 witness: a table row with key K overwritten by two staged rows with
key K ends as the second staged row, and keys stay unique. -/
theorem C4_merge_unique_keys_and_last_wins_witness :
    keysNodup (mergeStudents [⟨"old", "K", "b0"⟩] [⟨"n1", "K", "b1"⟩, ⟨"n2", "K", "b2"⟩]) ∧
    findByRoll "K" (mergeStudents [⟨"old", "K", "b0"⟩] [⟨"n1", "K", "b1"⟩, ⟨"n2", "K", "b2"⟩])
      = some ⟨"n2", "K", "b2"⟩ := by
  have h := C4_merge_unique_keys_and_last_wins [⟨"old", "K", "b0"⟩]
    [⟨"n1", "K", "b1"⟩, ⟨"n2", "K", "b2"⟩] (by unfold keysNodup keysOf; decide)
  exact ⟨h.1, h.2 "K" ⟨"n2", "K", "b2"⟩ (by decide)⟩

/-- Deduplication only keeps rows of the original frame. -/
theorem dedupFirstAux_subset (cols : List String) :
    ∀ (rows : List (List (Option String))) (seen : List (Option String)) r,
      r ∈ dedupFirstAux cols seen rows → r ∈ rows := by
  intro rows
  induction rows with
  | nil => intro seen r h; simp [dedupFirstAux] at h
  | cons x rs ih =>
    intro seen r h
    simp only [dedupFirstAux] at h
    by_cases hx : seen.contains (rowKey cols x) = true
    · rw [if_pos hx] at h
      exact List.mem_cons_of_mem x (ih seen r h)
    · rw [if_neg hx] at h
      rcases List.mem_cons.1 h with rfl | h2
      · exact List.mem_cons_self r rs
      · exact List.mem_cons_of_mem x (ih _ r h2)

/-- The rows flagged as duplicates and the rows kept partition the frame. -/
theorem dedup_dup_length (cols : List String) :
    ∀ (rows : List (List (Option String))) (seen : List (Option String)),
      (duplicatedRowsAux cols seen rows).length + (dedupFirstAux cols seen rows).length
        = rows.length := by
  intro rows
  induction rows with
  | nil => intro seen; simp [dedupFirstAux, duplicatedRowsAux]
  | cons x rs ih =>
    intro seen
    simp only [dedupFirstAux, duplicatedRowsAux, List.length_cons]
    by_cases hx : seen.contains (rowKey cols x) = true
    · rw [if_pos hx, if_pos hx, List.length_cons]
      have := ih seen
      omega
    · rw [if_neg hx, if_neg hx, List.length_cons]
      have := ih (rowKey cols x :: seen)
      omega

/-- Deduplication preserves the first row found for every key not yet
seen, and keeps no row at all for an already-seen key. -/
theorem dedupFirstAux_find? (cols : List String) :
    ∀ (rows : List (List (Option String))) (seen : List (Option String)) (k : Option String),
      (seen.contains k = true →
        (dedupFirstAux cols seen rows).find? (fun r => rowKey cols r == k) = none) ∧
      (seen.contains k = false →
        (dedupFirstAux cols seen rows).find? (fun r => rowKey cols r == k)
          = rows.find? (fun r => rowKey cols r == k)) := by
  intro rows
  induction rows with
  | nil =>
    intro seen k
    exact ⟨fun _ => by simp [dedupFirstAux], fun _ => by simp [dedupFirstAux]⟩
  | cons x rs ih =>
    intro seen k
    constructor
    · intro hk
      simp only [dedupFirstAux]
      by_cases hx : seen.contains (rowKey cols x) = true
      · rw [if_pos hx]
        exact (ih seen k).1 hk
      · rw [if_neg hx]
        have hne : (rowKey cols x == k) = false := by
          refine beq_eq_false_iff_ne.2 (fun he => hx ?_)
          rw [he]
          exact hk
        rw [List.find?_cons_of_neg _ (by simp [hne])]
        refine (ih _ k).1 ?_
        rw [List.contains_cons, hk, Bool.or_true]
    · intro hk
      simp only [dedupFirstAux]
      by_cases hx : seen.contains (rowKey cols x) = true
      · rw [if_pos hx]
        have hne : (rowKey cols x == k) = false := by
          refine beq_eq_false_iff_ne.2 (fun he => ?_)
          rw [he] at hx
          rw [hk] at hx
          exact Bool.false_ne_true hx
        rw [List.find?_cons_of_neg _ (by simp [hne])]
        exact (ih seen k).2 hk
      · rw [if_neg hx]
        by_cases hxk : (rowKey cols x == k) = true
        · rw [@List.find?_cons_of_pos _ (fun r => rowKey cols r == k) x
              (dedupFirstAux cols (rowKey cols x :: seen) rs) hxk,
            @List.find?_cons_of_pos _ (fun r => rowKey cols r == k) x rs hxk]
        · rw [@List.find?_cons_of_neg _ (fun r => rowKey cols r == k) x
              (dedupFirstAux cols (rowKey cols x :: seen) rs) hxk,
            @List.find?_cons_of_neg _ (fun r => rowKey cols r == k) x rs hxk]
          refine (ih _ k).2 ?_
          rw [List.contains_cons, hk, Bool.or_false]
          have hne : rowKey cols x ≠ k := fun he => hxk (beq_iff_eq.2 he)
          exact beq_eq_false_iff_ne.2 (fun he => hne he.symm)

/-- Every row's key survives deduplication (possibly via another row). -/
theorem mem_keys_dedupFirstAux (cols : List String) :
    ∀ (rows : List (List (Option String))) (seen : List (Option String)) r, r ∈ rows →
      seen.contains (rowKey cols r) = true ∨
      rowKey cols r ∈ (dedupFirstAux cols seen rows).map (rowKey cols) := by
  intro rows
  induction rows with
  | nil => intro seen r h; simp at h
  | cons x rs ih =>
    intro seen r h
    simp only [dedupFirstAux]
    by_cases hx : seen.contains (rowKey cols x) = true
    · rw [if_pos hx]
      rcases List.mem_cons.1 h with rfl | h2
      · exact Or.inl hx
      · exact ih seen r h2
    · rw [if_neg hx]
      rcases List.mem_cons.1 h with rfl | h2
      · refine Or.inr ?_
        rw [List.map_cons]
        exact List.mem_cons_self _ _
      · rcases ih (rowKey cols x :: seen) r h2 with hc | hm
        · rw [List.contains_cons, Bool.or_eq_true] at hc
          rcases hc with hb | hb
          · refine Or.inr ?_
            rw [List.map_cons, beq_iff_eq.1 hb]
            exact List.mem_cons_self _ _
          · exact Or.inl hb
        · refine Or.inr ?_
          rw [List.map_cons]
          exact List.mem_cons_of_mem _ hm

/-- The keys kept by deduplication are pairwise distinct (and avoid the
already-seen keys). -/
theorem nodup_keys_dedupFirstAux (cols : List String) :
    ∀ (rows : List (List (Option String))) (seen : List (Option String)),
      ((dedupFirstAux cols seen rows).map (rowKey cols)).Nodup ∧
      ∀ k, k ∈ (dedupFirstAux cols seen rows).map (rowKey cols) →
        seen.contains k = false := by
  intro rows
  induction rows with
  | nil =>
    intro seen
    refine ⟨by simp [dedupFirstAux], fun k hk => ?_⟩
    simp [dedupFirstAux] at hk
  | cons x rs ih =>
    intro seen
    simp only [dedupFirstAux]
    by_cases hx : seen.contains (rowKey cols x) = true
    · rw [if_pos hx]; exact ih seen
    · rw [if_neg hx]
      obtain ⟨hnd, hall⟩ := ih (rowKey cols x :: seen)
      constructor
      · rw [List.map_cons, List.nodup_cons]
        refine ⟨fun hmem => ?_, hnd⟩
        have hc := hall _ hmem
        rw [List.contains_cons] at hc
        simp at hc
      · intro k hk
        rw [List.map_cons, List.mem_cons] at hk
        rcases hk with rfl | hk2
        · exact Bool.eq_false_iff.2 hx
        · have hc := hall k hk2
          rw [List.contains_cons] at hc
          exact (Bool.or_eq_false_iff.1 hc).2

/-- Any member of the Step 1 warning list is a warning of the whole run,
whatever the later external calls do. -/
theorem warning_mem_run (df0 : DataFrame) (o : Oracle) (s0 : List Student) (w : Warning)
    (hv : hasRequiredColumns df0 = true)
    (hw : w ∈ (if (duplicatedRows (preDedup df0)).length == 0 then
          (if df0.cols.length > expectedColumns.length then [Warning.extraColumns] else [])
        else
          (if df0.cols.length > expectedColumns.length then [Warning.extraColumns] else []) ++
            [Warning.duplicateRolls (duplicatedRows (preDedup df0)).length])) :
    w ∈ (run (some df0) o s0).warnings := by
  have hg : ∀ (l extra : List Warning) (b : Bool), w ∈ l → w ∈ (if b = true then l else l ++ extra) := by
    intro l extra b h
    cases b
    · simp only [Bool.false_eq_true, if_false]
      exact List.mem_append_left _ h
    · simpa using h
  simp only [run, if_pos hv]
  by_cases h1 : o.connectOk = true
  · rw [if_pos h1]
    by_cases h2 : o.createTableOk = true
    · rw [if_pos h2]
      by_cases h3 : o.createTempOk = true
      · rw [if_pos h3]
        by_cases h4 : o.copyOk = true
        · rw [if_pos h4]
          cases hp : copyFromParse (toCsvBuffer (cleanedOf df0)) with
          | none => simp only [hp]; exact hw
          | some staged =>
            simp only [hp]
            by_cases h5 : o.mergeOk = true
            · rw [if_pos h5]
              have hw3 : w ∈ (if o.dropTempOk = true then
                  (if (duplicatedRows (preDedup df0)).length == 0 then
                    (if df0.cols.length > expectedColumns.length then [Warning.extraColumns] else [])
                  else
                    (if df0.cols.length > expectedColumns.length then [Warning.extraColumns]
                      else []) ++
                      [Warning.duplicateRolls (duplicatedRows (preDedup df0)).length])
                else
                  (if (duplicatedRows (preDedup df0)).length == 0 then
                    (if df0.cols.length > expectedColumns.length then [Warning.extraColumns] else [])
                  else
                    (if df0.cols.length > expectedColumns.length then [Warning.extraColumns]
                      else []) ++
                      [Warning.duplicateRolls (duplicatedRows (preDedup df0)).length]) ++
                    [Warning.dropTempFailed]) := hg _ _ _ hw
              by_cases h7 : o.verifyOk = true
              · rw [if_pos h7]
                exact hg _ _ _ hw3
              · rw [if_neg h7]
                exact List.mem_append_left _ hw3
            · rw [if_neg h5]
              exact hw
        · rw [if_neg h4]
          exact hw
      · rw [if_neg h3]
        exact hw
    · rw [if_neg h2]
      exact hw
  · rw [if_neg h1]
    exact hw

/-- C2: deduplication leaves exactly one row per distinct `uni_roll` of
the cleaned frame (keys pairwise distinct, every pre-deduplication key
still present), the kept row for each key is the first occurrence in file
order (`find?` is unchanged), the discarded rows are exactly the reported
duplicated rows (their count is the length difference), and when any
duplicates exist their count is reported as a warning of the run. -/
theorem C2_dedup_keeps_first_occurrence_and_reports (df0 : DataFrame) :
    ((cleanedOf df0).rows.map (rowKey (preDedup df0).cols)).Nodup ∧
    (∀ r ∈ (preDedup df0).rows,
        rowKey (preDedup df0).cols r
          ∈ (cleanedOf df0).rows.map (rowKey (preDedup df0).cols)) ∧
    (∀ k, (cleanedOf df0).rows.find? (fun r => rowKey (preDedup df0).cols r == k)
        = (preDedup df0).rows.find? (fun r => rowKey (preDedup df0).cols r == k)) ∧
    ((duplicatedRows (preDedup df0)).length + (cleanedOf df0).rows.length
        = (preDedup df0).rows.length) ∧
    (∀ (o : Oracle) (s0 : List Student), hasRequiredColumns df0 = true →
        (duplicatedRows (preDedup df0)).length ≠ 0 →
        Warning.duplicateRolls (duplicatedRows (preDedup df0)).length
          ∈ (run (some df0) o s0).warnings) := by
  refine ⟨?_, ?_, ?_, ?_, ?_⟩
  · exact (nodup_keys_dedupFirstAux (preDedup df0).cols (preDedup df0).rows []).1
  · intro r hr
    rcases mem_keys_dedupFirstAux (preDedup df0).cols (preDedup df0).rows [] r hr with hc | hm
    · rw [List.contains_nil] at hc
      exact absurd hc (by simp)
    · exact hm
  · intro k
    exact (dedupFirstAux_find? (preDedup df0).cols (preDedup df0).rows [] k).2 List.contains_nil
  · exact dedup_dup_length (preDedup df0).cols (preDedup df0).rows []
  · intro o s0 hv hdup
    refine warning_mem_run df0 o s0 _ hv ?_
    have hb : (((duplicatedRows (preDedup df0)).length == 0) : Bool) = false :=
      beq_eq_false_iff_ne.2 hdup
    rw [if_neg (by simp [hb])]
    exact List.mem_append_right _ (List.mem_cons_self _ _)

/-- C2 witness: on a concrete frame with a duplicated roll R1, the run
reports one discarded duplicate. -/
theorem C2_dedup_keeps_first_occurrence_and_reports_witness :
    Warning.duplicateRolls 1 ∈ (run (some dfDup) oAll []).warnings := by
  have h := (C2_dedup_keeps_first_occurrence_and_reports dfDup).2.2.2.2 oAll [] rfl
    (by decide)
  have hlen : (duplicatedRows (preDedup dfDup)).length = 1 := by decide
  rw [hlen] at h
  exact h

/-- Truncation really bounds the length. -/
theorem length_truncStr (n : Nat) (s : String) : (truncStr n s).length = min n s.length := by
  cases s with
  | mk data =>
    show (data.take n).length = min n data.length
    exact List.length_take n data

theorem colIdx_lt (c : String) :
    ∀ (cols : List String) (i : Nat), colIdx cols c = some i → i < cols.length := by
  intro cols
  induction cols with
  | nil => intro i h; simp [colIdx] at h
  | cons x xs ih =>
    intro i h
    simp only [colIdx] at h
    by_cases hx : x = c
    · rw [if_pos hx] at h
      cases h
      simp
    · rw [if_neg hx] at h
      obtain ⟨j, hj, rfl⟩ := Option.map_eq_some'.1 h
      rw [List.length_cons]
      exact Nat.succ_lt_succ (ih j hj)

theorem colIdx_get? (c : String) :
    ∀ (cols : List String) (i : Nat), colIdx cols c = some i → cols.get? i = some c := by
  intro cols
  induction cols with
  | nil => intro i h; simp [colIdx] at h
  | cons x xs ih =>
    intro i h
    simp only [colIdx] at h
    by_cases hx : x = c
    · rw [if_pos hx] at h
      cases h
      rw [hx]
      rfl
    · rw [if_neg hx] at h
      obtain ⟨j, hj, rfl⟩ := Option.map_eq_some'.1 h
      simpa using ih j hj

theorem colIdx_of_contains (c : String) :
    ∀ (cols : List String), cols.contains c = true → ∃ i, colIdx cols c = some i := by
  intro cols
  induction cols with
  | nil => intro h; rw [List.contains_nil] at h; exact absurd h (by simp)
  | cons x xs ih =>
    intro h
    by_cases hx : x = c
    · exact ⟨0, by simp [colIdx, hx]⟩
    · rw [List.contains_cons] at h
      have hcx : (c == x) = false := beq_eq_false_iff_ne.2 (fun he => hx he.symm)
      rw [hcx, Bool.false_or] at h
      obtain ⟨j, hj⟩ := ih h
      exact ⟨j + 1, by simp [colIdx, hx, hj]⟩

/-- Cleaning a row cell-by-cell commutes with looking a column up. -/
theorem getCell_zipWith_cleanCell (cols : List String) (r : List (Option String)) (c : String)
    (hc : ∃ i, colIdx cols c = some i) (hlen : r.length = cols.length) :
    getCell cols (List.zipWith cleanCell cols r) c = cleanCell c (getCell cols r c) := by
  obtain ⟨i, hi⟩ := hc
  have hilt : i < cols.length := colIdx_lt c cols i hi
  have hirlt : i < r.length := by rw [hlen]; exact hilt
  have hci : cols.get? i = some c := colIdx_get? c cols i hi
  rw [getCell, getCell, hi]
  dsimp only
  rw [List.get?_eq_getElem?, List.get?_eq_getElem?, List.getElem?_zipWith]
  rw [List.getElem?_eq_getElem hirlt, List.getElem?_eq_getElem hilt]
  have hcival : cols[i] = c := by
    rw [List.get?_eq_getElem?, List.getElem?_eq_getElem hilt] at hci
    exact Option.some.inj hci
  dsimp only
  rw [hcival]
  rfl

/-- C7: every row of the cleaned dataset comes from an input row, and each
of its fields is the comma- and quote-stripped value of that input row's
field truncated to the column width (255 for name, 100 for uni_roll, 50
for branch); in particular, when the stripped value exceeds the width the
loaded value has exactly the maximum length. -/
theorem C7_fields_are_stripped_and_truncated (df0 : DataFrame)
    (hv : hasRequiredColumns df0 = true)
    (hrect : ∀ r ∈ df0.rows, r.length = df0.cols.length) :
    ∀ s ∈ toStudents (cleanedOf df0), ∃ r ∈ df0.rows,
      s.name = truncStr 255 (stripCQ (astypeStr (getCell df0.cols r "name"))) ∧
      s.uni_roll = truncStr 100 (stripCQ (astypeStr (getCell df0.cols r "uni_roll"))) ∧
      s.branch = truncStr 50 (stripCQ (astypeStr (getCell df0.cols r "branch"))) ∧
      ((stripCQ (astypeStr (getCell df0.cols r "name"))).length > 255 → s.name.length = 255) ∧
      ((stripCQ (astypeStr (getCell df0.cols r "uni_roll"))).length > 100 →
        s.uni_roll.length = 100) ∧
      ((stripCQ (astypeStr (getCell df0.cols r "branch"))).length > 50 →
        s.branch.length = 50) := by
  intro s hs
  obtain ⟨rd, hrd, rfl⟩ := List.mem_map.1 hs
  have hrd2 : rd ∈ (preDedup df0).rows :=
    dedupFirstAux_subset (preDedup df0).cols (preDedup df0).rows [] rd hrd
  have hrd3 : rd ∈ (cleanDF (selectExpected df0)).rows := (List.mem_filter.1 hrd2).1
  obtain ⟨r1, hr1, rfl⟩ := List.mem_map.1 hrd3
  suffices h : ∃ r ∈ df0.rows,
      getCell (selectExpected df0).cols
          (List.zipWith cleanCell (selectExpected df0).cols r1) "name"
        = some (cleanField 255 (getCell df0.cols r "name")) ∧
      getCell (selectExpected df0).cols
          (List.zipWith cleanCell (selectExpected df0).cols r1) "uni_roll"
        = some (cleanField 100 (getCell df0.cols r "uni_roll")) ∧
      getCell (selectExpected df0).cols
          (List.zipWith cleanCell (selectExpected df0).cols r1) "branch"
        = some (cleanField 50 (getCell df0.cols r "branch")) by
    obtain ⟨r, hr, h1, h2, h3⟩ := h
    refine ⟨r, hr, ?_, ?_, ?_, ?_, ?_, ?_⟩
    · show (getCell (selectExpected df0).cols
          (List.zipWith cleanCell (selectExpected df0).cols r1) "name").getD "" = _
      rw [h1]
      rfl
    · show (getCell (selectExpected df0).cols
          (List.zipWith cleanCell (selectExpected df0).cols r1) "uni_roll").getD "" = _
      rw [h2]
      rfl
    · show (getCell (selectExpected df0).cols
          (List.zipWith cleanCell (selectExpected df0).cols r1) "branch").getD "" = _
      rw [h3]
      rfl
    · intro hlong
      show ((getCell (selectExpected df0).cols
          (List.zipWith cleanCell (selectExpected df0).cols r1) "name").getD "").length = 255
      rw [h1]
      show (truncStr 255 (stripCQ (astypeStr (getCell df0.cols r "name")))).length = 255
      rw [length_truncStr]
      omega
    · intro hlong
      show ((getCell (selectExpected df0).cols
          (List.zipWith cleanCell (selectExpected df0).cols r1) "uni_roll").getD "").length = 100
      rw [h2]
      show (truncStr 100 (stripCQ (astypeStr (getCell df0.cols r "uni_roll")))).length = 100
      rw [length_truncStr]
      omega
    · intro hlong
      show ((getCell (selectExpected df0).cols
          (List.zipWith cleanCell (selectExpected df0).cols r1) "branch").getD "").length = 50
      rw [h3]
      show (truncStr 50 (stripCQ (astypeStr (getCell df0.cols r "branch")))).length = 50
      rw [length_truncStr]
      omega
  by_cases hgt : df0.cols.length > expectedColumns.length
  · have hsel : selectExpected df0
        = ⟨expectedColumns,
           df0.rows.map (fun r => expectedColumns.map (fun c => getCell df0.cols r c))⟩ := by
      rw [selectExpected, if_pos hgt]
    have hr1' : r1 ∈ df0.rows.map (fun r => expectedColumns.map (fun c => getCell df0.cols r c)) := by
      rw [hsel] at hr1
      exact hr1
    obtain ⟨r0, hr0, rfl⟩ := List.mem_map.1 hr1'
    refine ⟨r0, hr0, ?_, ?_, ?_⟩ <;>
      · rw [hsel]
        rfl
  · have hsel : selectExpected df0 = df0 := by
      rw [selectExpected, if_neg hgt]
    rw [hsel] at hr1 ⊢
    have hlen : r1.length = df0.cols.length := hrect r1 hr1
    have hall := List.all_eq_true.1 hv
    refine ⟨r1, hr1, ?_, ?_, ?_⟩
    · rw [getCell_zipWith_cleanCell df0.cols r1 "name"
        (colIdx_of_contains "name" df0.cols (hall "name" (by simp [expectedColumns]))) hlen]
      rfl
    · rw [getCell_zipWith_cleanCell df0.cols r1 "uni_roll"
        (colIdx_of_contains "uni_roll" df0.cols (hall "uni_roll" (by simp [expectedColumns]))) hlen]
      rfl
    · rw [getCell_zipWith_cleanCell df0.cols r1 "branch"
        (colIdx_of_contains "branch" df0.cols (hall "branch" (by simp [expectedColumns]))) hlen]
      rfl

set_option maxRecDepth 4000 in
/-- C7 witness: a 300-character name is loaded as its 255-character
truncation. -/
theorem C7_fields_are_stripped_and_truncated_witness :
    ∃ r ∈ dfLong.rows,
      (⟨longName255, "R9", "CE"⟩ : Student).name
          = truncStr 255 (stripCQ (astypeStr (getCell dfLong.cols r "name"))) ∧
      (⟨longName255, "R9", "CE"⟩ : Student).uni_roll
          = truncStr 100 (stripCQ (astypeStr (getCell dfLong.cols r "uni_roll"))) ∧
      (⟨longName255, "R9", "CE"⟩ : Student).branch
          = truncStr 50 (stripCQ (astypeStr (getCell dfLong.cols r "branch"))) ∧
      ((stripCQ (astypeStr (getCell dfLong.cols r "name"))).length > 255 →
        (⟨longName255, "R9", "CE"⟩ : Student).name.length = 255) ∧
      ((stripCQ (astypeStr (getCell dfLong.cols r "uni_roll"))).length > 100 →
        (⟨longName255, "R9", "CE"⟩ : Student).uni_roll.length = 100) ∧
      ((stripCQ (astypeStr (getCell dfLong.cols r "branch"))).length > 50 →
        (⟨longName255, "R9", "CE"⟩ : Student).branch.length = 50) :=
  C7_fields_are_stripped_and_truncated dfLong rfl (by decide)
    ⟨longName255, "R9", "CE"⟩ (by decide)

/-- Feeding safe characters into the COPY scan just extends the current
field. -/
theorem copyRowsAux_feed :
    ∀ (cs : List Char), (∀ ch ∈ cs, ch ≠ '\\' ∧ ch ≠ ',' ∧ ch ≠ '\n') →
      ∀ (rest field : List Char) (row : List (List Char)),
        copyRowsAux ',' (cs ++ rest) field row = copyRowsAux ',' rest (field ++ cs) row := by
  intro cs
  induction cs with
  | nil => intro _ rest field row; simp
  | cons c cs ih =>
    intro hsafe rest field row
    obtain ⟨h1, h2, h3⟩ := hsafe c (List.mem_cons_self _ _)
    rw [List.cons_append, copyRowsAux.eq_def]
    dsimp only
    rw [if_neg (by simp [h1]), if_neg (by simp [h2]), if_neg (by simp [h3])]
    rw [ih (fun ch hch => hsafe ch (List.mem_cons_of_mem _ hch)) rest (field ++ [c]) row]
    rw [List.append_assoc, List.singleton_append]

/-- An unescaped delimiter closes the current field. -/
theorem copyRowsAux_delim (rest field : List Char) (row : List (List Char)) :
    copyRowsAux ',' (',' :: rest) field row = copyRowsAux ',' rest [] (row ++ [field]) := by
  rw [copyRowsAux.eq_def]
  dsimp only
  rw [if_neg (by decide), if_pos (by decide)]

/-- An unescaped newline closes the current row. -/
theorem copyRowsAux_newline (rest field : List Char) (row : List (List Char)) :
    copyRowsAux ',' ('\n' :: rest) field row = (row ++ [field]) :: copyRowsAux ',' rest [] [] := by
  rw [copyRowsAux.eq_def]
  dsimp only
  rw [if_neg (by decide), if_neg (by decide), if_pos (by decide)]

/-- One safe three-field line parses to exactly its three fields. -/
theorem copyRowsAux_line (a b c : List Char)
    (ha : ∀ ch ∈ a, ch ≠ '\\' ∧ ch ≠ ',' ∧ ch ≠ '\n')
    (hb : ∀ ch ∈ b, ch ≠ '\\' ∧ ch ≠ ',' ∧ ch ≠ '\n')
    (hc : ∀ ch ∈ c, ch ≠ '\\' ∧ ch ≠ ',' ∧ ch ≠ '\n')
    (rest : List Char) :
    copyRowsAux ',' ((a ++ ',' :: (b ++ ',' :: c)) ++ '\n' :: rest) [] []
      = [a, b, c] :: copyRowsAux ',' rest [] [] := by
  have hassoc : (a ++ ',' :: (b ++ ',' :: c)) ++ '\n' :: rest
      = a ++ (',' :: (b ++ (',' :: (c ++ ('\n' :: rest))))) := by
    simp [List.append_assoc]
  rw [hassoc]
  rw [copyRowsAux_feed a ha _ [] []]
  rw [List.nil_append]
  rw [copyRowsAux_delim]
  rw [copyRowsAux_feed b hb _ [] _]
  rw [List.nil_append]
  rw [copyRowsAux_delim]
  rw [copyRowsAux_feed c hc _ [] _]
  rw [List.nil_append]
  rw [copyRowsAux_newline]
  rfl

/-- A round-trip-safe field needs no quoting. -/
theorem needsQuoting_eq_false (s : String) (h : copySafeStr s) : needsQuoting s = false := by
  rw [needsQuoting, List.any_eq_false]
  intro ch hch
  obtain ⟨h1, h2, h3, h4, _⟩ := h ch hch
  simp [h1, h2, h3, h4]

/-- A round-trip-safe field is serialized verbatim. -/
theorem csvFieldChars_of_safe (s : String) (h : copySafeStr s) : csvFieldChars s = s.data := by
  show (if needsQuoting s then '"' :: (quoteChars s.data ++ ['"']) else s.data) = s.data
  rw [needsQuoting_eq_false s h]
  rfl

/-- Every member of a zip comes from members of both lists. -/
theorem mem_zipWith {α β γ : Type} (f : α → β → γ) :
    ∀ (as : List α) (bs : List β) (c : γ), c ∈ List.zipWith f as bs →
      ∃ a b, a ∈ as ∧ b ∈ bs ∧ c = f a b := by
  intro as
  induction as with
  | nil => intro bs c h; simp at h
  | cons a as ih =>
    intro bs c h
    cases bs with
    | nil => simp at h
    | cons b bs =>
      rw [List.zipWith_cons_cons] at h
      rcases List.mem_cons.1 h with rfl | h2
      · exact ⟨a, b, List.mem_cons_self _ _, List.mem_cons_self _ _, rfl⟩
      · obtain ⟨a2, b2, ha2, hb2, hc⟩ := ih bs c h2
        exact ⟨a2, b2, List.mem_cons_of_mem _ ha2, List.mem_cons_of_mem _ hb2, hc⟩

/-- After validation, every column of the working frame is one of the
three required columns: either the selection reduced the frame to exactly
`expectedColumns`, or the frame had at most three columns all of which the
required ones occupy. -/
theorem cols_subset_expected (df0 : DataFrame) (hv : hasRequiredColumns df0 = true) :
    ∀ c ∈ (selectExpected df0).cols, c ∈ expectedColumns := by
  intro c hc
  by_cases hgt : df0.cols.length > expectedColumns.length
  · unfold selectExpected at hc
    rw [if_pos hgt] at hc
    exact hc
  · unfold selectExpected at hc
    rw [if_neg hgt] at hc
    have hsub : ∀ e ∈ expectedColumns, e ∈ df0.cols := by
      intro e he
      exact List.elem_iff.1 (List.all_eq_true.1 hv e he)
    have hlen : df0.cols.length ≤ expectedColumns.length := Nat.le_of_not_lt hgt
    have hnd : expectedColumns.Nodup := by decide
    have hfsub : expectedColumns.toFinset ⊆ df0.cols.toFinset := by
      intro x hx
      exact List.mem_toFinset.2 (hsub x (List.mem_toFinset.1 hx))
    have hcard : df0.cols.toFinset.card ≤ expectedColumns.toFinset.card := by
      calc df0.cols.toFinset.card ≤ df0.cols.length := List.toFinset_card_le _
        _ ≤ expectedColumns.length := hlen
        _ = expectedColumns.toFinset.card := (List.toFinset_card_of_nodup hnd).symm
    have heq : expectedColumns.toFinset = df0.cols.toFinset :=
      Finset.eq_of_subset_of_card_le hfsub hcard
    have hmem : c ∈ df0.cols.toFinset := List.mem_toFinset.2 hc
    rw [← heq] at hmem
    exact List.mem_toFinset.1 hmem

/-- Cleaning a required column always yields a present, cleaned field. -/
theorem cleanCell_expected (c : String) (hc : c ∈ expectedColumns) (cell : Option String) :
    ∃ n, cleanCell c cell = some (cleanField n cell) := by
  simp only [expectedColumns, List.mem_cons, List.not_mem_nil, or_false] at hc
  rcases hc with rfl | rfl | rfl
  · exact ⟨255, rfl⟩
  · exact ⟨100, rfl⟩
  · exact ⟨50, rfl⟩

/-- A cleaned field contains neither commas nor double quotes. -/
theorem cleanField_chars (n : Nat) (cell : Option String) :
    ∀ ch ∈ (cleanField n cell).data, ch ≠ ',' ∧ ch ≠ '"' := by
  intro ch hch
  have hch' : ch ∈ (((astypeStr cell).data.filter (fun x => x != ',')).filter
      (fun x => x != '"')).take n := hch
  have h1 := List.take_subset n _ hch'
  have h2 := List.mem_filter.1 h1
  have h3 := List.mem_filter.1 h2.1
  refine ⟨?_, ?_⟩
  · simpa using h3.2
  · simpa using h2.2

/-- C10 part 1, standalone: no cell of the cleaned frame contains a comma
or a double quote. -/
theorem cleaned_cells_no_comma_quote (df0 : DataFrame) (hv : hasRequiredColumns df0 = true) :
    ∀ r ∈ (cleanedOf df0).rows, ∀ cell ∈ r, ∀ s : String, cell = some s →
      ∀ ch ∈ s.data, ch ≠ ',' ∧ ch ≠ '"' := by
  intro r hr cell hcell s hcs ch hch
  have hr2 : r ∈ (preDedup df0).rows :=
    dedupFirstAux_subset (preDedup df0).cols (preDedup df0).rows [] r hr
  have hr3 : r ∈ (cleanDF (selectExpected df0)).rows := (List.mem_filter.1 hr2).1
  obtain ⟨r1, hr1, rfl⟩ := List.mem_map.1 hr3
  obtain ⟨cname, bcell, hcname, _, hcellEq⟩ :=
    mem_zipWith cleanCell (selectExpected df0).cols r1 cell hcell
  have hcexp : cname ∈ expectedColumns := cols_subset_expected df0 hv cname hcname
  obtain ⟨n, hn⟩ := cleanCell_expected cname hcexp bcell
  rw [hcellEq, hn] at hcs
  have hs : s = cleanField n bcell := (Option.some.inj hcs).symm
  subst hs
  exact cleanField_chars n bcell ch hch

/-- A buffer of safe three-field lines parses back to its rows. -/
theorem copyRows_buffer :
    ∀ (rows : List (List (Option String))),
      (∀ r ∈ rows, ∃ a b c : String, r = [some a, some b, some c] ∧
          copySafeStr a ∧ copySafeStr b ∧ copySafeStr c) →
      copyRowsAux ',' ((rows.map (fun r => csvLineChars (rowCells r) ++ ['\n'])).flatten) [] []
        = rows.map (fun r => (rowCells r).map String.data) := by
  intro rows
  induction rows with
  | nil => intro _; rfl
  | cons r rs ih =>
    intro hshape
    obtain ⟨a, b, c, hr, hsa, hsb, hsc⟩ := hshape r (List.mem_cons_self _ _)
    subst hr
    rw [List.map_cons, List.flatten_cons, List.append_assoc, List.singleton_append]
    have hline : csvLineChars (rowCells [some a, some b, some c])
        = a.data ++ ',' :: (b.data ++ ',' :: c.data) := by
      show joinSep ',' [csvFieldChars a, csvFieldChars b, csvFieldChars c] = _
      rw [csvFieldChars_of_safe a hsa, csvFieldChars_of_safe b hsb, csvFieldChars_of_safe c hsc]
      rfl
    rw [hline]
    have hsafe3 : ∀ (s : String), copySafeStr s →
        ∀ ch ∈ s.data, ch ≠ '\\' ∧ ch ≠ ',' ∧ ch ≠ '\n' := by
      intro s hs ch hch
      obtain ⟨h1, _, h3, _, h5⟩ := hs ch hch
      exact ⟨h5, h1, h3⟩
    rw [copyRowsAux_line a.data b.data c.data (hsafe3 a hsa) (hsafe3 b hsb) (hsafe3 c hsc)]
    rw [ih (fun r2 hr2 => hshape r2 (List.mem_cons_of_mem _ hr2))]
    rfl

/-- The serialize-then-COPY round trip is the identity on frames in
required-column order whose rows are three present, round-trip-safe
fields. -/
theorem roundtrip_identity (df : DataFrame)
    (hcols : df.cols = expectedColumns)
    (hshape : ∀ r ∈ df.rows, ∃ a b c : String, r = [some a, some b, some c] ∧
        copySafeStr a ∧ copySafeStr b ∧ copySafeStr c) :
    copyFromParse (toCsvBuffer df) = some (toStudents df) := by
  have hrows : copyRowsAux ',' (toCsvBuffer df).data [] []
      = df.rows.map (fun r => (rowCells r).map String.data) :=
    copyRows_buffer df.rows hshape
  show (if (copyRowsAux ',' (toCsvBuffer df).data [] []).all (fun r => r.length == 3) = true then
      some ((copyRowsAux ',' (toCsvBuffer df).data [] []).map
        (fun r => (⟨⟨r.getD 0 []⟩, ⟨r.getD 1 []⟩, ⟨r.getD 2 []⟩⟩ : Student)))
    else none) = some (toStudents df)
  rw [hrows]
  have hall : (df.rows.map (fun r => (rowCells r).map String.data)).all
      (fun r => r.length == 3) = true := by
    rw [List.all_eq_true]
    intro x hx
    obtain ⟨r, hr, rfl⟩ := List.mem_map.1 hx
    obtain ⟨a, b, c, hreq, _, _, _⟩ := hshape r hr
    subst hreq
    rfl
  rw [if_pos hall]
  congr 1
  rw [List.map_map]
  show _ = df.rows.map (fun r =>
    (⟨(getCell df.cols r "name").getD "", (getCell df.cols r "uni_roll").getD "",
      (getCell df.cols r "branch").getD ""⟩ : Student))
  refine List.map_congr_left (fun r hr => ?_)
  obtain ⟨a, b, c, hreq, _, _, _⟩ := hshape r hr
  subst hreq
  rw [hcols]
  rfl

/-- With the cleaned frame in required-column order, every cleaned row is
three present string cells. -/
theorem cleaned_row_shape (df0 : DataFrame)
    (hrect : ∀ r ∈ df0.rows, r.length = df0.cols.length)
    (hcols : (selectExpected df0).cols = expectedColumns) :
    ∀ r ∈ (cleanedOf df0).rows, ∃ a b c : String, r = [some a, some b, some c] := by
  intro r hr
  have hr2 : r ∈ (preDedup df0).rows :=
    dedupFirstAux_subset (preDedup df0).cols (preDedup df0).rows [] r hr
  have hr3 : r ∈ (cleanDF (selectExpected df0)).rows := (List.mem_filter.1 hr2).1
  obtain ⟨r1, hr1, rfl⟩ := List.mem_map.1 hr3
  have hlen1 : r1.length = 3 := by
    by_cases hgt : df0.cols.length > expectedColumns.length
    · unfold selectExpected at hr1
      rw [if_pos hgt] at hr1
      obtain ⟨r0, _, rfl⟩ := List.mem_map.1 hr1
      rfl
    · unfold selectExpected at hr1
      rw [if_neg hgt] at hr1
      have hc2 : df0.cols = expectedColumns := by
        unfold selectExpected at hcols
        rw [if_neg hgt] at hcols
        exact hcols
      rw [hrect r1 hr1, hc2]
      rfl
  obtain ⟨x, y, z, hxyz⟩ := List.length_eq_three.1 hlen1
  subst hxyz
  rw [hcols]
  exact ⟨cleanField 255 x, cleanField 100 y, cleanField 50 z, rfl⟩

/-- C10 (amended): after cleaning no field contains a comma or double
quote, so serialization emits no quoted field; and provided the cleaned
frame's columns are in the order name, uni_roll, branch and no cleaned
field contains a backslash, newline, or carriage return (characters the
cleaning does not remove and the COPY text format does not take
literally), the bulk COPY loads into the staging table exactly the rows
of the cleaned dataset, field for field. -/
theorem C10_amended_roundtrip_identity (df0 : DataFrame)
    (hv : hasRequiredColumns df0 = true)
    (hrect : ∀ r ∈ df0.rows, r.length = df0.cols.length) :
    (∀ r ∈ (cleanedOf df0).rows, ∀ cell ∈ r, ∀ s : String, cell = some s →
        ∀ ch ∈ s.data, ch ≠ ',' ∧ ch ≠ '"') ∧
    ((cleanedOf df0).cols = expectedColumns →
      (∀ r ∈ (cleanedOf df0).rows, ∀ cell ∈ r, ∀ s : String, cell = some s →
          ∀ ch ∈ s.data, ch ≠ '\\' ∧ ch ≠ '\n' ∧ ch ≠ '\r') →
      copyFromParse (toCsvBuffer (cleanedOf df0)) = some (toStudents (cleanedOf df0))) := by
  refine ⟨cleaned_cells_no_comma_quote df0 hv, fun hcols hsafe => ?_⟩
  have hcols' : (selectExpected df0).cols = expectedColumns := hcols
  refine roundtrip_identity (cleanedOf df0) hcols ?_
  intro r hr
  obtain ⟨a, b, c, hshape⟩ := cleaned_row_shape df0 hrect hcols' r hr
  have hsafeOf : ∀ s : String, (some s) ∈ r → copySafeStr s := by
    intro s hs ch hch
    have hnc := cleaned_cells_no_comma_quote df0 hv r hr (some s) hs s rfl ch hch
    have hns := hsafe r hr (some s) hs s rfl ch hch
    exact ⟨hnc.1, hnc.2, hns.2.1, hns.2.2, hns.1⟩
  refine ⟨a, b, c, hshape, ?_, ?_, ?_⟩
  · exact hsafeOf a (by rw [hshape]; simp)
  · exact hsafeOf b (by rw [hshape]; simp)
  · exact hsafeOf c (by rw [hshape]; simp)

/-- C10 amended witness: on the worked example the staged rows equal the
cleaned rows. -/
theorem C10_amended_roundtrip_identity_witness :
    copyFromParse (toCsvBuffer (cleanedOf dfC8)) = some (toStudents (cleanedOf dfC8)) :=
  (C10_amended_roundtrip_identity dfC8 rfl (by decide)).2 rfl (by decide)
end XataLoad
